import Mathlib

/-!
Verification development for the residual-program materialization stage of
an ahead-of-time partial evaluator (serializer back end).  The definitions
below are shallow embeddings of `src/serializer/ResidualFunctions.js` and of
the lazy-objects serializer (`LazyObjectsSerializer`); theorems settle the
specified properties of these functions.
-/

/-! ## A minimal Babel-style AST

Mirrors the node shapes produced via `babel-types` constructors that the
embedded functions actually build (`t.identifier`, `t.numericLiteral`,
`t.callExpression`, `t.memberExpression`, `t.functionExpression`,
`t.switchCase`, `t.breakStatement`, `t.throwStatement`, ...). -/

inductive Param where
  | identifier (name : String)
  | patternParam (tag : Nat)
deriving DecidableEq

mutual
inductive Expr where
  | ident (name : String)
  | numLit (n : Nat)
  | strLit (s : String)
  | nullLit
  | thisExpr
  | member (obj : Expr) (prop : String)
  | call (callee : Expr) (args : List Expr)
  | newExpr (callee : Expr) (args : List Expr)
  | funcExpr (params : List Param) (body : List Stmt)

inductive Stmt where
  | exprStmt (e : Expr)
  | varDecl (name : String) (init : Expr)
  | returnStmt (e : Expr)
  | breakStmt
  | throwStmt (e : Expr)
  | switchStmt (sel : Expr) (cases : List (Option Expr × List Stmt))
  | recordedStmt (tag : Nat)
end

/-! ## Association-list embedding of JS `Map`

JS `Map` preserves insertion order; `get` finds the entry for a key,
`set` of a fresh key appends, `set` of an existing key updates in place. -/

def lookupAssoc {β : Type} (k : Nat) : List (Nat × β) → Option β
  | [] => none
  | p :: rest => if p.1 = k then some p.2 else lookupAssoc k rest

def updateAssoc {β : Type} (k : Nat) (v : β) : List (Nat × β) → List (Nat × β)
  | [] => []
  | p :: rest => if p.1 = k then (k, v) :: rest else p :: updateAssoc k v rest

/-! ## ResidualFunctions: data carried by a function instance

`FunctionInstance` flattens the fields of the source `FunctionInstance`
record together with the per-instance facts `spliceFunctions` reads from
sibling maps of the `ResidualFunctions` object:
`scopeInstanceIds` are the ids of the referentialized scope instances the
instance closes over (`instance.scopeInstances`, one entry per scope);
`varyingBindings` are the resolved bindings for the factory parameter names
(`factoryNames`), in order; `hasInitializerStatement` reflects
`residualFunctionInitializers.hasInitializerStatement(functionValue)`;
`firstUsage` reflects `firstFunctionUsages.get(functionValue)`;
`hasPrototypeId` reflects `functionPrototypes.get(functionValue) !== undefined`. -/

structure BodyRef where
  bodyId : Nat
  index : Nat
deriving DecidableEq

structure ResidualFunctionBindingData where
  serializedValue : Expr
  valueIsFunction : Bool

structure FunctionInstance where
  scopeInstanceIds : List Nat
  varyingBindings : List ResidualFunctionBindingData
  hasInitializerStatement : Bool
  firstUsage : Option BodyRef
  insertionPoint : BodyRef
  hasPrototypeId : Bool

/-- Per-code-block static facts (source `FunctionInfo`): only the fields the
embedded functions consult. -/
structure FunctionInfo where
  usesArguments : Bool
  usesThis : Bool

/-- The ast node of a function code block, as consulted by
`_shouldUseFactoryFunction`: its `start`/`end` character offsets (absent or
zero offsets are falsy in JS) and its `uniqueOrderedTag`. -/
structure FuncBodyNode where
  start : Option Int
  end_ : Option Int
  uniqueOrderedTag : Nat

/-- JS truthiness of a possibly-missing number: `undefined`, `null` and `0`
are falsy. -/
def truthyNum : Option Int → Bool
  | none => false
  | some v => !(v == 0)

/-- Embedding of the nested `shouldInlineFunction` of
`_shouldUseFactoryFunction` (ResidualFunctions.js:138-146): returns `false`
when the first instance has scope instances; otherwise `true`, unless both
`start` and `end` are truthy, in which case the body size `end - start` must
be at most 30. -/
def shouldInlineFunction (funcBody : FuncBodyNode) (instances : List FunctionInstance) : Bool :=
  match instances with
  | [] => true
  | inst0 :: _ =>
    if 0 < inst0.scopeInstanceIds.length then false
    else if truthyNum funcBody.start && truthyNum funcBody.end_ then
      decide (funcBody.end_.getD 0 - funcBody.start.getD 0 ≤ (30 : Int))
    else true

/-- Embedding of `_shouldUseFactoryFunction` (ResidualFunctions.js:136-151):
a shared factory is used iff the block should not be inlined, there is more
than one instance, and the block does not use `arguments`. -/
def shouldUseFactoryFunction (funcBody : FuncBodyNode) (functionInfo : FunctionInfo)
    (instances : List FunctionInstance) : Bool :=
  !(shouldInlineFunction funcBody instances) && decide (1 < instances.length) &&
    !functionInfo.usesArguments

/-- Shadow definition following the words of the specification for the
factory decision: `hasScopeCapture` holds when AT LEAST ONE instance closes
over a referentialized scope, `size` is the absolute character span, and
`shouldInline = !hasScopeCapture && size <= 30`; a factory is used iff
`!shouldInline && instanceCount > 1 && !usesArguments`. -/
def specShouldUseFactoryFunction (funcBody : FuncBodyNode) (functionInfo : FunctionInfo)
    (instances : List FunctionInstance) : Bool :=
  let hasScopeCapture := instances.any (fun i => 0 < i.scopeInstanceIds.length)
  let size := funcBody.end_.getD 0 - funcBody.start.getD 0
  let shouldInline := !hasScopeCapture && decide (size ≤ (30 : Int))
  !shouldInline && decide (1 < instances.length) && !functionInfo.usesArguments

/-! Concrete inputs exhibiting the divergence between the code and the
specification sentence for claim C1: the code consults only the FIRST
instance for scope capture, the spec sentence quantifies over all
instances. -/

def c1Body : FuncBodyNode := { start := some 1, end_ := some 10, uniqueOrderedTag := 1 }

def c1Info : FunctionInfo := { usesArguments := false, usesThis := false }

def c1InstNoCapture : FunctionInstance :=
  { scopeInstanceIds := []
    varyingBindings := []
    hasInitializerStatement := false
    firstUsage := none
    insertionPoint := { bodyId := 0, index := 0 }
    hasPrototypeId := false }

def c1InstWithCapture : FunctionInstance :=
  { scopeInstanceIds := [7]
    varyingBindings := []
    hasInitializerStatement := false
    firstUsage := none
    insertionPoint := { bodyId := 0, index := 0 }
    hasPrototypeId := false }

/-- Claim C1, counterexample: with two instances of a 9-character block where
only the second instance closes over a referentialized scope, the code
inlines (no factory) while the specification sentence, whose
`hasScopeCapture` is satisfied by the second instance, demands a factory. -/
theorem c1_counterexample :
    ¬ (shouldUseFactoryFunction c1Body c1Info [c1InstNoCapture, c1InstWithCapture] =
        specShouldUseFactoryFunction c1Body c1Info [c1InstNoCapture, c1InstWithCapture]) := by
  decide

/-- Claim C1 (amended): for a block whose `start` and `end` offsets are
present and nonzero, and a nonempty instance list, a shared factory is used
iff `!shouldInline && instanceCount > 1 && !usesArguments`, where
`shouldInline` holds iff the FIRST instance closes over no referentialized
scope and the absolute character span is at most 30. -/
theorem c1_theorem (funcBody : FuncBodyNode) (functionInfo : FunctionInfo)
    (inst0 : FunctionInstance) (rest : List FunctionInstance) (s e : Int)
    (hs : funcBody.start = some s) (he : funcBody.end_ = some e)
    (hs0 : s ≠ 0) (he0 : e ≠ 0) :
    shouldUseFactoryFunction funcBody functionInfo (inst0 :: rest) = true ↔
      (¬ (inst0.scopeInstanceIds.length = 0 ∧ e - s ≤ 30) ∧
        1 < (inst0 :: rest).length ∧ functionInfo.usesArguments = false) := by
  have hts : truthyNum funcBody.start = true := by
    rw [hs]; simp [truthyNum, hs0]
  have hte : truthyNum funcBody.end_ = true := by
    rw [he]; simp [truthyNum, he0]
  have hinline : shouldInlineFunction funcBody (inst0 :: rest) =
      (decide (inst0.scopeInstanceIds.length = 0) && decide (e - s ≤ 30)) := by
    have hts2 : truthyNum (some s) = true := by simp [truthyNum, hs0]
    have hte2 : truthyNum (some e) = true := by simp [truthyNum, he0]
    rcases Nat.eq_zero_or_pos inst0.scopeInstanceIds.length with h0 | h0
    · simp [shouldInlineFunction, h0, hts2, hte2, hs, he]
    · have h1 : inst0.scopeInstanceIds.length ≠ 0 := Nat.pos_iff_ne_zero.mp h0
      simp [shouldInlineFunction, h0, h1]
  rw [shouldUseFactoryFunction, hinline]
  simp only [Bool.and_eq_true, Bool.not_eq_true', Bool.and_eq_false_iff,
    decide_eq_false_iff_not, decide_eq_true_eq]
  tauto

/-- Claim C1 witness: a 40-character block with two capture-free instances
and no `arguments` usage does use the shared factory. -/
theorem c1_theorem_witness :
    shouldUseFactoryFunction { start := some 1, end_ := some 41, uniqueOrderedTag := 1 }
        c1Info [c1InstNoCapture, c1InstNoCapture] = true :=
  (c1_theorem _ c1Info c1InstNoCapture [c1InstNoCapture] 1 41 rfl rfl
      (by decide) (by decide)).mpr ⟨by decide, by decide, rfl⟩

/-! ## Ordering of code blocks (`_sortFunctionByOriginalOrdering`)

One entry of the `functions` map: a code block (identified by `blockId`,
carrying its `uniqueOrderedTag`) together with its instances.  The instance
payload is irrelevant to the ordering, so the entry keeps only the block
identity. -/

structure FunctionEntry where
  uniqueOrderedTag : Nat
  blockId : Nat
deriving DecidableEq

/-- The comparator of `_sortFunctionByOriginalOrdering`
(ResidualFunctions.js:245-254): ascending on `uniqueOrderedTag`. -/
def entryLE (a b : FunctionEntry) : Bool :=
  decide (a.uniqueOrderedTag ≤ b.uniqueOrderedTag)

/-- Embedding of `_sortFunctionByOriginalOrdering`: sort the function
entries ascending by `uniqueOrderedTag`. -/
def sortFunctionByOriginalOrdering (entries : List FunctionEntry) : List FunctionEntry :=
  entries.mergeSort entryLE

/-- Claim C6: code blocks are processed in ascending `uniqueOrderedTag`
order, and for two runs whose `functions` maps hold the same entries (in any
iteration orders) with pairwise distinct tags, the processed order is
identical. -/
theorem c6_theorem (l1 l2 : List FunctionEntry) (hperm : l1.Perm l2)
    (hnodup : (l1.map FunctionEntry.uniqueOrderedTag).Nodup) :
    List.Sorted (fun a b : FunctionEntry => a.uniqueOrderedTag ≤ b.uniqueOrderedTag)
        (sortFunctionByOriginalOrdering l1) ∧
      sortFunctionByOriginalOrdering l1 = sortFunctionByOriginalOrdering l2 := by
  have htrans : ∀ a b c : FunctionEntry,
      entryLE a b = true → entryLE b c = true → entryLE a c = true := by
    intro a b c hab hbc
    simp only [entryLE, decide_eq_true_eq] at *
    omega
  have htotal : ∀ a b : FunctionEntry, (entryLE a b || entryLE b a) = true := by
    intro a b
    simp only [entryLE, Bool.or_eq_true, decide_eq_true_eq]
    omega
  have hs1 := List.sorted_mergeSort htrans htotal l1
  have hs2 := List.sorted_mergeSort htrans htotal l2
  have hsorted1 : List.Sorted (fun a b : FunctionEntry =>
      a.uniqueOrderedTag ≤ b.uniqueOrderedTag) (sortFunctionByOriginalOrdering l1) :=
    hs1.imp (fun h => by simpa [entryLE] using h)
  have hsorted2 : List.Sorted (fun a b : FunctionEntry =>
      a.uniqueOrderedTag ≤ b.uniqueOrderedTag) (sortFunctionByOriginalOrdering l2) :=
    hs2.imp (fun h => by simpa [entryLE] using h)
  have hp1 : (sortFunctionByOriginalOrdering l1).Perm l1 := List.mergeSort_perm l1 entryLE
  have hp2 : (sortFunctionByOriginalOrdering l2).Perm l2 := List.mergeSort_perm l2 entryLE
  have hnodup2 : (l2.map FunctionEntry.uniqueOrderedTag).Nodup :=
    (hperm.map FunctionEntry.uniqueOrderedTag).nodup hnodup
  have hn1 : ((sortFunctionByOriginalOrdering l1).map FunctionEntry.uniqueOrderedTag).Nodup :=
    ((hp1.map FunctionEntry.uniqueOrderedTag).symm).nodup hnodup
  have hn2 : ((sortFunctionByOriginalOrdering l2).map FunctionEntry.uniqueOrderedTag).Nodup :=
    ((hp2.map FunctionEntry.uniqueOrderedTag).symm).nodup hnodup2
  have hne1 : List.Pairwise (fun a b : FunctionEntry =>
      a.uniqueOrderedTag ≠ b.uniqueOrderedTag) (sortFunctionByOriginalOrdering l1) :=
    List.pairwise_map.mp hn1
  have hne2 : List.Pairwise (fun a b : FunctionEntry =>
      a.uniqueOrderedTag ≠ b.uniqueOrderedTag) (sortFunctionByOriginalOrdering l2) :=
    List.pairwise_map.mp hn2
  have hlt1 : List.Sorted (fun a b : FunctionEntry =>
      a.uniqueOrderedTag < b.uniqueOrderedTag) (sortFunctionByOriginalOrdering l1) :=
    (hsorted1.and hne1).imp (fun h => lt_of_le_of_ne h.1 h.2)
  have hlt2 : List.Sorted (fun a b : FunctionEntry =>
      a.uniqueOrderedTag < b.uniqueOrderedTag) (sortFunctionByOriginalOrdering l2) :=
    (hsorted2.and hne2).imp (fun h => lt_of_le_of_ne h.1 h.2)
  haveI : IsAntisymm FunctionEntry
      (fun a b : FunctionEntry => a.uniqueOrderedTag < b.uniqueOrderedTag) :=
    ⟨fun _ _ hab hba => (Nat.lt_asymm hab hba).elim⟩
  exact ⟨hsorted1, List.eq_of_perm_of_sorted (hp1.trans (hperm.trans hp2.symm)) hlt1 hlt2⟩

/-- Claim C6 witness: two iteration orders of the same two-entry map sort to
the same list. -/
theorem c6_theorem_witness :
    sortFunctionByOriginalOrdering [⟨2, 0⟩, ⟨1, 1⟩] =
      sortFunctionByOriginalOrdering [⟨1, 1⟩, ⟨2, 0⟩] :=
  (c6_theorem [⟨2, 0⟩, ⟨1, 1⟩] [⟨1, 1⟩, ⟨2, 0⟩] (by decide) (by decide)).2

/-! ## Final splice phase (claim C8)

The final loop of `spliceFunctions` (ResidualFunctions.js:678-687) walks
`functionInstances.reverse()` and, for each instance that accumulated a
statement group, runs
`insertionPoint.body.entries.splice(insertionPoint.index, 0, ...group)`.
Projected onto one target body, the inputs are the processing-ordered list
of (index, statement group) pairs and the body contents; the splice loop is
a fold over the reversed list. -/

/-- JS `body.splice(index, 0, ...group)`: insert `group` before position
`index` (clamped to the length, as `splice` clamps). -/
def spliceAt {α : Type} (index : Nat) (group body : List α) : List α :=
  body.take index ++ group ++ body.drop index

/-- Embedding of the reverse-order splice loop: groups are given in
processing order and spliced last-to-first. -/
def spliceReverse {α : Type} (groups : List (Nat × List α)) (body : List α) : List α :=
  groups.reverse.foldl (fun acc p => spliceAt p.1 p.2 acc) body

/-- All statements destined for slot `j` (the groups recorded with index
`j`), concatenated in processing order. -/
def atSlot {α : Type} (groups : List (Nat × List α)) (j : Nat) : List α :=
  ((groups.filter (fun p => p.1 == j)).map Prod.snd).flatten

/-- The independently computed interleaving: before the element at each
position of the body (and after its end) lay down every group recorded for
that position, in processing order. -/
def expectedSplice {α : Type} (groups : List (Nat × List α)) : Nat → List α → List α
  | j, [] => atSlot groups j
  | j, x :: xs => atSlot groups j ++ x :: expectedSplice groups (j + 1) xs

theorem atSlot_cons {α : Type} (p : Nat × List α) (gs : List (Nat × List α)) (j : Nat) :
    atSlot (p :: gs) j = (if p.1 = j then p.2 else []) ++ atSlot gs j := by
  by_cases h : p.1 = j <;> simp [atSlot, List.filter_cons, h]

theorem atSlot_eq_nil {α : Type} (gs : List (Nat × List α)) (j : Nat)
    (h : ∀ p ∈ gs, j < p.1) : atSlot gs j = [] := by
  induction gs with
  | nil => rfl
  | cons p gs ih =>
    have hp : j < p.1 := h p (List.mem_cons_self p gs)
    have hne : ¬ p.1 = j := by omega
    rw [atSlot_cons, if_neg hne, List.nil_append]
    exact ih (fun q hq => h q (List.mem_cons_of_mem p hq))

theorem expectedSplice_nil {α : Type} (j : Nat) (b : List α) :
    expectedSplice ([] : List (Nat × List α)) j b = b := by
  induction b generalizing j with
  | nil => simp [expectedSplice, atSlot]
  | cons x xs ih => simp [expectedSplice, atSlot, ih]

theorem expectedSplice_cons_of_lt {α : Type} (i : Nat) (g : List α)
    (gs : List (Nat × List α)) (j : Nat) (b : List α) (h : i < j) :
    expectedSplice ((i, g) :: gs) j b = expectedSplice gs j b := by
  induction b generalizing j with
  | nil =>
    have hne : ¬ i = j := by omega
    simp [expectedSplice, atSlot_cons, hne]
  | cons x xs ih =>
    have hne : ¬ i = j := by omega
    simp only [expectedSplice, atSlot_cons, if_neg hne, List.nil_append]
    rw [ih (j + 1) (by omega)]

theorem spliceAt_zero {α : Type} (g b : List α) : spliceAt 0 g b = g ++ b := by
  simp [spliceAt]

theorem spliceAt_succ_cons {α : Type} (k : Nat) (g : List α) (x : α) (xs : List α) :
    spliceAt (k + 1) g (x :: xs) = x :: spliceAt k g xs := by
  simp [spliceAt]

theorem spliceAt_expectedSplice {α : Type} (g : List α) (gs : List (Nat × List α))
    (i : Nat) (hgs : ∀ p ∈ gs, i ≤ p.1) :
    ∀ (b : List α) (j : Nat), j ≤ i → i ≤ j + b.length →
      spliceAt (i - j) g (expectedSplice gs j b) = expectedSplice ((i, g) :: gs) j b := by
  intro b
  induction b with
  | nil =>
    intro j hji hib
    have hij : i = j := by simp at hib; omega
    subst hij
    simp [expectedSplice, Nat.sub_self, spliceAt_zero, atSlot_cons]
  | cons x xs ih =>
    intro j hji hib
    rcases Nat.eq_or_lt_of_le hji with hij | hlt
    · subst hij
      simp only [expectedSplice, Nat.sub_self, spliceAt_zero, atSlot_cons, if_pos rfl]
      rw [expectedSplice_cons_of_lt _ _ _ _ _ (Nat.lt_succ_self j)]
      simp [List.append_assoc]
    · have hslot : atSlot gs j = [] :=
        atSlot_eq_nil gs j (fun p hp => lt_of_lt_of_le hlt (hgs p hp))
      have hne : ¬ i = j := by omega
      simp only [expectedSplice, hslot, List.nil_append, atSlot_cons, if_neg hne]
      have hsub : i - j = (i - (j + 1)) + 1 := by omega
      rw [hsub, spliceAt_succ_cons]
      rw [ih (j + 1) hlt (by simp at hib ⊢; omega)]

/-- Claim C8: when the recorded insertion indices are non-decreasing in
processing order (each splice target is no earlier than every previously
recorded one, which is what makes the reverse-order loop leave earlier
indices valid) and within bounds, the reverse-order splice loop produces
exactly the independently computed interleaving of the original body with
every group inserted at its recorded position, groups sharing one insertion
point appearing in processing order. -/
theorem c8_theorem {α : Type} (groups : List (Nat × List α)) (body : List α)
    (hsorted : List.Pairwise (fun p q : Nat × List α => p.1 ≤ q.1) groups)
    (hbound : ∀ p ∈ groups, p.1 ≤ body.length) :
    spliceReverse groups body = expectedSplice groups 0 body := by
  induction groups with
  | nil => simp [spliceReverse, expectedSplice_nil]
  | cons p gs ih =>
    rcases List.pairwise_cons.mp hsorted with ⟨hhead, htail⟩
    have hrev : spliceReverse (p :: gs) body = spliceAt p.1 p.2 (spliceReverse gs body) := by
      simp [spliceReverse, List.reverse_cons, List.foldl_append]
    rw [hrev, ih htail (fun q hq => hbound q (List.mem_cons_of_mem p hq))]
    have h0 := spliceAt_expectedSplice p.2 gs p.1 hhead body 0 (Nat.zero_le p.1)
      (by simpa using hbound p (List.mem_cons_self p gs))
    simpa [Nat.sub_zero] using h0

/-- Claim C8 witness: three groups sharing insertion index 1 in a two-element
body; the splice loop result matches the interleaving, which places the
groups between the two original elements in processing order. -/
theorem c8_theorem_witness :
    spliceReverse [(1, [10]), (1, [11]), (1, [12])] [0, 1] =
        expectedSplice [(1, [10]), (1, [11]), (1, [12])] 0 [0, 1] ∧
      expectedSplice [(1, [10]), (1, [11]), (1, [12])] 0 [0, 1] = [0, 10, 11, 12, 1] :=
  ⟨c8_theorem [(1, [10]), (1, [11]), (1, [12])] [0, 1] (by decide) (by decide), by decide⟩

/-! ## LazyObjectsSerializer

Shallow embedding of the lazy-objects serializer.  Heap objects are
identified by natural numbers (reference identity).  A `SerializedBody` is
an output buffer of the emission context: a reference identity, an optional
parent buffer, and its recorded statement entries. -/

inductive SerializedBody where
  | mk (bid : Nat) (parentBody : Option SerializedBody) (entries : List Stmt)

def SerializedBody.bid : SerializedBody → Nat
  | .mk i _ _ => i

def SerializedBody.entries : SerializedBody → List Stmt
  | .mk _ _ es => es

/-- Modelled from the spec: `Emitter.isCurrentBodyOffspringOf` (the Emitter
is not under src).  The emission context is a tree of body records with
parent links; the check walks the parent chain from the current body and
succeeds when it reaches the target body (the body itself counts as its own
offspring). -/
def isCurrentBodyOffspringOf : SerializedBody → SerializedBody → Bool
  | .mk i p _, target =>
    i == target.bid ||
      (match p with
       | some q => isCurrentBodyOffspringOf q target
       | none => false)

/-- The fields of `LazyObjectsSerializer` that its embedded methods touch:
the id seed, the object-to-lazy-id map, the object-to-initializer-body map
(in first-selection order), the program prelude, and the configured runtime
name (`options.lazyObjectsRuntime`). -/
structure LazyObjectsSerializer where
  lazyObjectIdSeed : Nat
  valueLazyIds : List (Nat × Nat)
  lazyObjectInitializers : List (Nat × SerializedBody)
  prelude : List Stmt
  lazyObjectsRuntime : String

/-- Constructor state: seed `1`, both maps empty. -/
def mkLazyObjectsSerializer (runtimeName : String) (prelude0 : List Stmt) :
    LazyObjectsSerializer :=
  { lazyObjectIdSeed := 1
    valueLazyIds := []
    lazyObjectInitializers := []
    prelude := prelude0
    lazyObjectsRuntime := runtimeName }

/-- Embedding of `_getValueLazyId`:
`getOrDefault(this._valueLazyIds, obj, () => this._lazyObjectIdSeed++)`. -/
def getValueLazyId (obj : Nat) (s : LazyObjectsSerializer) :
    Nat × LazyObjectsSerializer :=
  match lookupAssoc obj s.valueLazyIds with
  | some i => (i, s)
  | none =>
    (s.lazyObjectIdSeed,
      { s with
        lazyObjectIdSeed := s.lazyObjectIdSeed + 1
        valueLazyIds := s.valueLazyIds ++ [(obj, s.lazyObjectIdSeed)] })

def requestLazyId (s : LazyObjectsSerializer) (obj : Nat) : LazyObjectsSerializer :=
  (getValueLazyId obj s).2

/-- A sequence of lazy-id requests within one pass. -/
def runLazyIdRequests (s : LazyObjectsSerializer) (objs : List Nat) :
    LazyObjectsSerializer :=
  objs.foldl requestLazyId s

/-- Invariant of the lazy-id state: the seed stays positive, every assigned
id is positive and below the seed, and both the keys and the assigned ids of
the map are pairwise distinct. -/
def LazyIdInv (s : LazyObjectsSerializer) : Prop :=
  1 ≤ s.lazyObjectIdSeed ∧
    (∀ p ∈ s.valueLazyIds, 0 < p.2 ∧ p.2 < s.lazyObjectIdSeed) ∧
    (s.valueLazyIds.map Prod.fst).Nodup ∧
    (s.valueLazyIds.map Prod.snd).Nodup

theorem lookupAssoc_mem {β : Type} (k : Nat) (v : β) (l : List (Nat × β))
    (h : lookupAssoc k l = some v) : (k, v) ∈ l := by
  induction l with
  | nil => simp [lookupAssoc] at h
  | cons p rest ih =>
    by_cases hk : p.1 = k
    · rw [lookupAssoc, if_pos hk] at h
      obtain rfl : p.2 = v := Option.some.inj h
      obtain ⟨a, b⟩ := p
      obtain rfl : a = k := hk
      exact List.mem_cons_self _ _
    · rw [lookupAssoc, if_neg hk] at h
      exact List.mem_cons_of_mem p (ih h)

theorem lookupAssoc_eq_none {β : Type} (k : Nat) (l : List (Nat × β))
    (h : lookupAssoc k l = none) : k ∉ l.map Prod.fst := by
  induction l with
  | nil => simp
  | cons p rest ih =>
    by_cases hk : p.1 = k
    · rw [lookupAssoc, if_pos hk] at h
      simp at h
    · rw [lookupAssoc, if_neg hk] at h
      simp only [List.map_cons, List.mem_cons]
      rintro (rfl | hmem)
      · exact hk rfl
      · exact ih h hmem

theorem lookupAssoc_append_left {β : Type} (k : Nat) (v : β) (l1 l2 : List (Nat × β))
    (h : lookupAssoc k l1 = some v) : lookupAssoc k (l1 ++ l2) = some v := by
  induction l1 with
  | nil => simp [lookupAssoc] at h
  | cons p rest ih =>
    by_cases hk : p.1 = k
    · rw [lookupAssoc, if_pos hk] at h
      rw [List.cons_append, lookupAssoc, if_pos hk]
      exact h
    · rw [lookupAssoc, if_neg hk] at h
      rw [List.cons_append, lookupAssoc, if_neg hk]
      exact ih h

theorem lookupAssoc_append_self {β : Type} (k : Nat) (v : β) (l : List (Nat × β))
    (h : lookupAssoc k l = none) : lookupAssoc k (l ++ [(k, v)]) = some v := by
  induction l with
  | nil => simp [lookupAssoc]
  | cons p rest ih =>
    by_cases hk : p.1 = k
    · rw [lookupAssoc, if_pos hk] at h
      simp at h
    · rw [lookupAssoc, if_neg hk] at h
      rw [List.cons_append, lookupAssoc, if_neg hk]
      exact ih h

theorem getValueLazyId_found (obj : Nat) (s : LazyObjectsSerializer) (i : Nat)
    (h : lookupAssoc obj s.valueLazyIds = some i) : getValueLazyId obj s = (i, s) := by
  simp [getValueLazyId, h]

theorem getValueLazyId_notfound (obj : Nat) (s : LazyObjectsSerializer)
    (h : lookupAssoc obj s.valueLazyIds = none) :
    (getValueLazyId obj s).1 = s.lazyObjectIdSeed := by
  simp [getValueLazyId, h]

theorem lookup_after_request_self (obj : Nat) (s : LazyObjectsSerializer) :
    lookupAssoc obj ((getValueLazyId obj s).2).valueLazyIds =
      some (getValueLazyId obj s).1 := by
  cases h : lookupAssoc obj s.valueLazyIds with
  | some i => simp [getValueLazyId, h]
  | none =>
    simp only [getValueLazyId, h]
    exact lookupAssoc_append_self obj s.lazyObjectIdSeed s.valueLazyIds h

theorem lookup_preserved_request (k i obj : Nat) (s : LazyObjectsSerializer)
    (h : lookupAssoc k s.valueLazyIds = some i) :
    lookupAssoc k (requestLazyId s obj).valueLazyIds = some i := by
  cases hh : lookupAssoc obj s.valueLazyIds with
  | some j => simp [requestLazyId, getValueLazyId, hh, h]
  | none =>
    simp only [requestLazyId, getValueLazyId, hh]
    exact lookupAssoc_append_left k i s.valueLazyIds [(obj, s.lazyObjectIdSeed)] h

theorem lookup_preserved_run (k i : Nat) (objs : List Nat) :
    ∀ s : LazyObjectsSerializer, lookupAssoc k s.valueLazyIds = some i →
      lookupAssoc k (runLazyIdRequests s objs).valueLazyIds = some i := by
  induction objs with
  | nil => intro s h; exact h
  | cons o os ih =>
    intro s h
    exact ih (requestLazyId s o) (lookup_preserved_request k i o s h)

theorem lazyIdInv_request (s : LazyObjectsSerializer) (obj : Nat) (h : LazyIdInv s) :
    LazyIdInv (requestLazyId s obj) := by
  cases hh : lookupAssoc obj s.valueLazyIds with
  | some i => simpa [requestLazyId, getValueLazyId, hh] using h
  | none =>
    obtain ⟨h1, h2, h3, h4⟩ := h
    have hnotin : obj ∉ s.valueLazyIds.map Prod.fst :=
      lookupAssoc_eq_none obj s.valueLazyIds hh
    have hseednotin : s.lazyObjectIdSeed ∉ s.valueLazyIds.map Prod.snd := by
      intro hmem
      obtain ⟨p, hp, hps⟩ := List.mem_map.mp hmem
      exact absurd hps (Nat.ne_of_lt (h2 p hp).2)
    refine ⟨?_, ?_, ?_, ?_⟩
    · simp only [requestLazyId, getValueLazyId, hh]
      omega
    · simp only [requestLazyId, getValueLazyId, hh]
      intro p hp
      rcases List.mem_append.mp hp with hold | hnew
      · exact ⟨(h2 p hold).1, Nat.lt_succ_of_lt (h2 p hold).2⟩
      · obtain rfl : p = (obj, s.lazyObjectIdSeed) := List.mem_singleton.mp hnew
        exact ⟨h1, Nat.lt_succ_self _⟩
    · simp only [requestLazyId, getValueLazyId, hh, List.map_append, List.map_cons,
        List.map_nil]
      rw [List.nodup_append]
      exact ⟨h3, List.nodup_singleton _, by simpa using hnotin⟩
    · simp only [requestLazyId, getValueLazyId, hh, List.map_append, List.map_cons,
        List.map_nil]
      rw [List.nodup_append]
      exact ⟨h4, List.nodup_singleton _, by simpa using hseednotin⟩

theorem lazyIdInv_run (objs : List Nat) :
    ∀ s : LazyObjectsSerializer, LazyIdInv s → LazyIdInv (runLazyIdRequests s objs) := by
  induction objs with
  | nil => intro s h; exact h
  | cons o os ih =>
    intro s h
    exact ih (requestLazyId s o) (lazyIdInv_request s o h)

theorem lazyIdInv_init (runtimeName : String) (prelude0 : List Stmt) :
    LazyIdInv (mkLazyObjectsSerializer runtimeName prelude0) := by
  refine ⟨le_refl 1, ?_, ?_, ?_⟩ <;> simp [mkLazyObjectsSerializer]

theorem lazyId_props (s : LazyObjectsSerializer) (hinv : LazyIdInv s)
    (laterRequests : List Nat) (o1 o2 : Nat) (hne : o1 ≠ o2) :
    (getValueLazyId o1 (runLazyIdRequests (getValueLazyId o1 s).2 laterRequests)).1 =
        (getValueLazyId o1 s).1 ∧
      0 < (getValueLazyId o1 s).1 ∧
      (getValueLazyId o2 (getValueLazyId o1 s).2).1 ≠ (getValueLazyId o1 s).1 := by
  have hinv1 : LazyIdInv (getValueLazyId o1 s).2 := lazyIdInv_request s o1 hinv
  have hlook1 : lookupAssoc o1 ((getValueLazyId o1 s).2).valueLazyIds =
      some (getValueLazyId o1 s).1 := lookup_after_request_self o1 s
  refine ⟨?_, ?_, ?_⟩
  · have hpers := lookup_preserved_run o1 (getValueLazyId o1 s).1 laterRequests
      (getValueLazyId o1 s).2 hlook1
    rw [getValueLazyId_found _ _ _ hpers]
  · cases h : lookupAssoc o1 s.valueLazyIds with
    | some i =>
      rw [getValueLazyId_found _ _ _ h]
      exact (hinv.2.1 (o1, i) (lookupAssoc_mem o1 i s.valueLazyIds h)).1
    | none =>
      rw [getValueLazyId_notfound _ _ h]
      exact hinv.1
  · have hmem1 : (o1, (getValueLazyId o1 s).1) ∈ ((getValueLazyId o1 s).2).valueLazyIds :=
      lookupAssoc_mem _ _ _ hlook1
    cases h2 : lookupAssoc o2 ((getValueLazyId o1 s).2).valueLazyIds with
    | some i2 =>
      rw [getValueLazyId_found _ _ _ h2]
      intro heq
      have hmem2 : (o2, i2) ∈ ((getValueLazyId o1 s).2).valueLazyIds :=
        lookupAssoc_mem _ _ _ h2
      have := List.inj_on_of_nodup_map hinv1.2.2.2 hmem1 hmem2 heq.symm
      exact hne (congrArg Prod.fst this)
    | none =>
      rw [getValueLazyId_notfound _ _ h2]
      exact (Nat.ne_of_lt (hinv1.2.1 _ hmem1).2).symm

/-- Claim C2: within one pass (any request sequence from the constructor
state), lazy id assignment is total, stable and injective: a repeated
request for `o1` after any further requests returns the id of the first
request, the assigned id is a positive integer, and a request for a distinct
object `o2` returns a different id. -/
theorem c2_theorem (runtimeName : String) (prelude0 : List Stmt)
    (requests laterRequests : List Nat) (o1 o2 : Nat)
    (s : LazyObjectsSerializer)
    (hs : s = runLazyIdRequests (mkLazyObjectsSerializer runtimeName prelude0) requests)
    (hne : o1 ≠ o2) :
    (getValueLazyId o1 (runLazyIdRequests (getValueLazyId o1 s).2 laterRequests)).1 =
        (getValueLazyId o1 s).1 ∧
      0 < (getValueLazyId o1 s).1 ∧
      (getValueLazyId o2 (getValueLazyId o1 s).2).1 ≠ (getValueLazyId o1 s).1 := by
  subst hs
  exact lazyId_props _ (lazyIdInv_run requests _ (lazyIdInv_init runtimeName prelude0))
    laterRequests o1 o2 hne

/-- Claim C2 witness: concrete run with two distinct objects. -/
theorem c2_theorem_witness :
    (getValueLazyId 3
          (runLazyIdRequests
            (getValueLazyId 3
                (runLazyIdRequests (mkLazyObjectsSerializer "rt" []) [3, 4])).2
            [4, 3])).1 =
        (getValueLazyId 3 (runLazyIdRequests (mkLazyObjectsSerializer "rt" []) [3, 4])).1 ∧
      0 < (getValueLazyId 3 (runLazyIdRequests (mkLazyObjectsSerializer "rt" []) [3, 4])).1 ∧
      (getValueLazyId 4
            (getValueLazyId 3
                (runLazyIdRequests (mkLazyObjectsSerializer "rt" []) [3, 4])).2).1 ≠
        (getValueLazyId 3 (runLazyIdRequests (mkLazyObjectsSerializer "rt" []) [3, 4])).1 :=
  c2_theorem "rt" [] [3, 4] [4, 3] 3 4 _ rfl (by decide)

/-! ## Identifier substitution inside lazy initializer bodies (claim C3) -/

inductive Value where
  | objectValue (vid : Nat)
  | abstractValue (vid : Nat)
deriving DecidableEq

def Value.valueId : Value → Nat
  | .objectValue n => n
  | .abstractValue n => n

def Value.isObjectValue : Value → Bool
  | .objectValue _ => true
  | .abstractValue _ => false

/-- `this._callbackLazyObjectParam = t.identifier("obj")`. -/
def callbackLazyObjectParam : Expr := Expr.ident "obj"

/-- Modelled from the spec: the base serializer
(`ResidualHeapSerializer.getSerializeObjectIdentifier`, not under src)
returns the value's stable assigned identifier. -/
def baseSerializeObjectIdentifier (val : Value) : Expr :=
  Expr.ident ("val_" ++ toString val.valueId)

/-- Embedding of `_isEmittingIntoLazyObjectInitializerBody`: the object has
an initializer body in `_lazyObjectInitializers` and the current emission
body is an offspring of it. -/
def isEmittingIntoLazyObjectInitializerBody (s : LazyObjectsSerializer)
    (currentBody : SerializedBody) (obj : Nat) : Bool :=
  match lookupAssoc obj s.lazyObjectInitializers with
  | some objLazyBody => isCurrentBodyOffspringOf currentBody objLazyBody
  | none => false

/-- Embedding of the `getSerializeObjectIdentifier` override: inside a lazy
object's own initializer body the object's identifier is the hydration
callback parameter, everywhere else the base identifier. -/
def getSerializeObjectIdentifier (s : LazyObjectsSerializer)
    (currentBody : SerializedBody) (val : Value) : Expr :=
  if val.isObjectValue &&
      isEmittingIntoLazyObjectInitializerBody s currentBody val.valueId then
    callbackLazyObjectParam
  else
    baseSerializeObjectIdentifier val

theorem baseSerializeObjectIdentifier_ne_param (val : Value) :
    baseSerializeObjectIdentifier val ≠ callbackLazyObjectParam := by
  intro h
  rw [baseSerializeObjectIdentifier, callbackLazyObjectParam] at h
  have h2 : ("val_" ++ toString val.valueId) = "obj" := by
    injection h
  have h3 := congrArg String.length h2
  rw [String.length_append] at h3
  have h4 : ("val_").length = 4 := by decide
  have h5 : ("obj").length = 3 := by decide
  omega

/-- Claim C3: for every value, the serializer returns the hydration callback
parameter exactly when the value is an object selected for laziness and the
current emission body is that object's own initializer body or an offspring
of it; in every other position (other lazy objects' bodies included, and all
non-lazy or non-object values) it returns the value's normal serialized
identifier, which is never the parameter. -/
theorem c3_theorem (s : LazyObjectsSerializer) (currentBody : SerializedBody)
    (val : Value) :
    (getSerializeObjectIdentifier s currentBody val = callbackLazyObjectParam ↔
        (∃ n b, val = Value.objectValue n ∧
          lookupAssoc n s.lazyObjectInitializers = some b ∧
          isCurrentBodyOffspringOf currentBody b = true)) ∧
      (getSerializeObjectIdentifier s currentBody val = callbackLazyObjectParam ∨
        getSerializeObjectIdentifier s currentBody val =
          baseSerializeObjectIdentifier val) ∧
      baseSerializeObjectIdentifier val ≠ callbackLazyObjectParam := by
  refine ⟨?_, ?_, baseSerializeObjectIdentifier_ne_param val⟩
  case refine_2 =>
    cases hc : (val.isObjectValue &&
        isEmittingIntoLazyObjectInitializerBody s currentBody val.valueId) with
    | true =>
      left
      simp [getSerializeObjectIdentifier, hc]
    | false =>
      right
      simp [getSerializeObjectIdentifier, hc]
  · cases val with
    | abstractValue n =>
      simp only [getSerializeObjectIdentifier, Value.isObjectValue, Bool.false_and,
        if_false, Bool.false_eq_true]
      constructor
      · intro h
        exact absurd h (baseSerializeObjectIdentifier_ne_param _)
      · rintro ⟨n2, b, hval, _⟩
        exact absurd hval (by simp)
    | objectValue n =>
      cases hl : lookupAssoc n s.lazyObjectInitializers with
      | none =>
        simp only [getSerializeObjectIdentifier, Value.isObjectValue, Bool.true_and,
          isEmittingIntoLazyObjectInitializerBody, Value.valueId, hl, if_false,
          Bool.false_eq_true]
        constructor
        · intro h
          exact absurd h (baseSerializeObjectIdentifier_ne_param _)
        · rintro ⟨n2, b, hval, hlook, _⟩
          obtain rfl : n2 = n := by
            have := Value.objectValue.inj hval
            omega
          rw [hl] at hlook
          exact absurd hlook (by simp)
      | some b0 =>
        by_cases hoff : isCurrentBodyOffspringOf currentBody b0 = true
        · simp only [getSerializeObjectIdentifier, Value.isObjectValue, Bool.true_and,
            isEmittingIntoLazyObjectInitializerBody, Value.valueId, hl, hoff, if_true]
          constructor
          · intro _
            exact ⟨n, b0, rfl, hl, hoff⟩
          · intro _
            trivial
        · have hoff2 : isCurrentBodyOffspringOf currentBody b0 = false :=
            Bool.not_eq_true _ ▸ (Bool.eq_false_iff.mpr hoff)
          simp only [getSerializeObjectIdentifier, Value.isObjectValue, Bool.true_and,
            isEmittingIntoLazyObjectInitializerBody, Value.valueId, hl, hoff2,
            if_false, Bool.false_eq_true]
          constructor
          · intro h
            exact absurd h (baseSerializeObjectIdentifier_ne_param _)
          · rintro ⟨n2, b, hval, hlook, hb⟩
            obtain rfl : n2 = n := by
              have := Value.objectValue.inj hval
              omega
            rw [hl] at hlook
            obtain rfl : b = b0 := (Option.some.inj hlook).symm ▸ rfl
            exact absurd hb (by rw [hoff2]; simp)

/-! ## The initialization callback and its registration (claims C4, C5) -/

/-- `this._initializationCallbackName = t.identifier("__initializerCallback")`. -/
def initializationCallbackName : String := "__initializerCallback"

/-- Embedding of `_serializeLazyObjectInitializerSwitchCase`: one switch case
testing the object's lazy id, whose body is the recorded initializer entries
followed by a break statement.  Threads the id state, since
`_getValueLazyId` can allocate. -/
def serializeLazyObjectInitializerSwitchCase (obj : Nat) (initializer : SerializedBody)
    (s : LazyObjectsSerializer) : (Option Expr × List Stmt) × LazyObjectsSerializer :=
  let caseBody := initializer.entries ++ [Stmt.breakStmt]
  let r := getValueLazyId obj s
  ((some (Expr.numLit r.1), caseBody), r.2)

/-- The loop of `_serializeInitializationCallback` over
`_lazyObjectInitializers`, in map (first-selection) order. -/
def serializeInitializationCallbackCases :
    List (Nat × SerializedBody) → LazyObjectsSerializer →
      List (Option Expr × List Stmt) × LazyObjectsSerializer
  | [], s => ([], s)
  | (obj, initializer) :: rest, s =>
    let r := serializeLazyObjectInitializerSwitchCase obj initializer s
    let rr := serializeInitializationCallbackCases rest r.2
    (r.1 :: rr.1, rr.2)

/-- The default case: `throw new Error("Unknown lazy id")`. -/
def defaultSwitchCase : Option Expr × List Stmt :=
  (none, [Stmt.throwStmt (Expr.newExpr (Expr.ident "Error") [Expr.strLit "Unknown lazy id"])])

/-- Embedding of `_serializeInitializationCallback`: declare
`__initializerCallback` as a function of `(obj, id)` whose body is a switch
on `id` over one case per lazy object plus the default case. -/
def serializeInitializationCallback (s : LazyObjectsSerializer) :
    Stmt × LazyObjectsSerializer :=
  let cs := serializeInitializationCallbackCases s.lazyObjectInitializers s
  (Stmt.varDecl initializationCallbackName
      (Expr.funcExpr [Param.identifier "obj", Param.identifier "id"]
        [Stmt.switchStmt (Expr.ident "id") (cs.1 ++ [defaultSwitchCase])]),
    cs.2)

/-- Embedding of `_serializeRegisterInitializationCallback`:
`runtime.setLazyObjectInitializer(__initializerCallback);`. -/
def serializeRegisterInitializationCallback (s : LazyObjectsSerializer) : Stmt :=
  Stmt.exprStmt (Expr.call
    (Expr.member (Expr.ident s.lazyObjectsRuntime) "setLazyObjectInitializer")
    [Expr.ident initializationCallbackName])

/-- Embedding of `postGeneratorSerialization`: when at least one object was
selected for laziness, push the callback declaration and the registration
call onto the prelude; otherwise do nothing. -/
def postGeneratorSerialization (s : LazyObjectsSerializer) : LazyObjectsSerializer :=
  if 0 < s.lazyObjectInitializers.length then
    let r := serializeInitializationCallback s
    { r.2 with prelude := r.2.prelude ++ [r.1, serializeRegisterInitializationCallback r.2] }
  else s

theorem getValueLazyId_preserves (obj : Nat) (s : LazyObjectsSerializer) :
    (getValueLazyId obj s).2.lazyObjectInitializers = s.lazyObjectInitializers ∧
      (getValueLazyId obj s).2.prelude = s.prelude ∧
      (getValueLazyId obj s).2.lazyObjectsRuntime = s.lazyObjectsRuntime := by
  cases h : lookupAssoc obj s.valueLazyIds <;> simp [getValueLazyId, h]

theorem serializeInitializationCallbackCases_preserves
    (inits : List (Nat × SerializedBody)) :
    ∀ s : LazyObjectsSerializer,
      (serializeInitializationCallbackCases inits s).2.prelude = s.prelude ∧
        (serializeInitializationCallbackCases inits s).2.lazyObjectsRuntime =
          s.lazyObjectsRuntime := by
  induction inits with
  | nil => intro s; exact ⟨rfl, rfl⟩
  | cons p rest ih =>
    intro s
    obtain ⟨o, b⟩ := p
    have h1 := getValueLazyId_preserves o s
    have h2 := ih (getValueLazyId o s).2
    simp only [serializeInitializationCallbackCases, serializeLazyObjectInitializerSwitchCase]
    exact ⟨h2.1.trans h1.2.1, h2.2.trans h1.2.2⟩

theorem serializeRegisterInitializationCallback_congr (s1 s2 : LazyObjectsSerializer)
    (h : s1.lazyObjectsRuntime = s2.lazyObjectsRuntime) :
    serializeRegisterInitializationCallback s1 = serializeRegisterInitializationCallback s2 := by
  simp [serializeRegisterInitializationCallback, h]

/-- Claim C4: the callback declaration and the registration call are appended
to the prelude iff at least one object was selected for laziness; with zero
lazy objects the serializer state (the prelude included) is left entirely
unchanged, so neither statement appears in the output. -/
theorem c4_theorem (s : LazyObjectsSerializer) :
    (postGeneratorSerialization s).prelude =
        s.prelude ++
          (if 0 < s.lazyObjectInitializers.length then
            [(serializeInitializationCallback s).1,
              serializeRegisterInitializationCallback s]
          else []) ∧
      (s.lazyObjectInitializers.length = 0 → postGeneratorSerialization s = s) := by
  constructor
  · by_cases h : 0 < s.lazyObjectInitializers.length
    · rw [postGeneratorSerialization, if_pos h, if_pos h]
      have hp := serializeInitializationCallbackCases_preserves s.lazyObjectInitializers s
      have hreg : serializeRegisterInitializationCallback
          (serializeInitializationCallback s).2 =
            serializeRegisterInitializationCallback s :=
        serializeRegisterInitializationCallback_congr _ s hp.2
      have hprel : (serializeInitializationCallback s).2.prelude = s.prelude := hp.1
      show (serializeInitializationCallback s).2.prelude ++
            [(serializeInitializationCallback s).1,
              serializeRegisterInitializationCallback (serializeInitializationCallback s).2] =
          s.prelude ++
            [(serializeInitializationCallback s).1,
              serializeRegisterInitializationCallback s]
      rw [hprel, hreg]
    · rw [postGeneratorSerialization, if_neg h, if_neg h, List.append_nil]
  · intro h0
    have h : ¬ 0 < s.lazyObjectInitializers.length := by omega
    rw [postGeneratorSerialization, if_neg h]

/-- Claim C4 witness: with zero lazy objects the pass leaves the serializer,
prelude included, unchanged. -/
theorem c4_theorem_witness :
    postGeneratorSerialization (mkLazyObjectsSerializer "rt" [Stmt.breakStmt]) =
      mkLazyObjectsSerializer "rt" [Stmt.breakStmt] :=
  (c4_theorem (mkLazyObjectsSerializer "rt" [Stmt.breakStmt])).2 rfl

theorem serializeInitializationCallbackCases_found (inits : List (Nat × SerializedBody)) :
    ∀ s : LazyObjectsSerializer,
      (∀ p ∈ inits, lookupAssoc p.1 s.valueLazyIds ≠ none) →
      serializeInitializationCallbackCases inits s =
        (inits.map (fun p =>
          (some (Expr.numLit ((lookupAssoc p.1 s.valueLazyIds).getD 0)),
            p.2.entries ++ [Stmt.breakStmt])), s) := by
  induction inits with
  | nil => intro s _; rfl
  | cons p rest ih =>
    intro s h
    obtain ⟨o, b⟩ := p
    have ho : lookupAssoc o s.valueLazyIds ≠ none :=
      h (o, b) (List.mem_cons_self _ _)
    cases hl : lookupAssoc o s.valueLazyIds with
    | none => exact absurd hl ho
    | some i =>
      have hfound : getValueLazyId o s = (i, s) := getValueLazyId_found o s i hl
      simp only [serializeInitializationCallbackCases,
        serializeLazyObjectInitializerSwitchCase, hfound]
      rw [ih s (fun q hq => h q (List.mem_cons_of_mem _ hq))]
      simp [hl]

/-- Claim C5: when every lazy object already received its id (which holds in
a real pass, since `createLazyObject(id)` was emitted at selection time),
the synthesized callback is a declaration of `__initializerCallback` as a
function of `(obj, id)` whose body dispatches on `id` with exactly one case
per lazy object in first-selection order — case body the recorded
initializer entries plus a break — and a default case throwing
`new Error("Unknown lazy id")`. -/
theorem c5_theorem (s : LazyObjectsSerializer)
    (hids : ∀ p ∈ s.lazyObjectInitializers, lookupAssoc p.1 s.valueLazyIds ≠ none) :
    (serializeInitializationCallback s).1 =
      Stmt.varDecl initializationCallbackName
        (Expr.funcExpr [Param.identifier "obj", Param.identifier "id"]
          [Stmt.switchStmt (Expr.ident "id")
            (s.lazyObjectInitializers.map (fun p =>
                (some (Expr.numLit ((lookupAssoc p.1 s.valueLazyIds).getD 0)),
                  p.2.entries ++ [Stmt.breakStmt])) ++ [defaultSwitchCase])]) := by
  simp only [serializeInitializationCallback]
  rw [serializeInitializationCallbackCases_found s.lazyObjectInitializers s hids]

/-- A concrete serializer state with two lazy objects, ids already
assigned. -/
def c5State : LazyObjectsSerializer :=
  { lazyObjectIdSeed := 3
    valueLazyIds := [(5, 1), (9, 2)]
    lazyObjectInitializers :=
      [(5, SerializedBody.mk 0 none [Stmt.recordedStmt 0]),
        (9, SerializedBody.mk 1 none [])]
    prelude := []
    lazyObjectsRuntime := "rt" }

/-- Claim C5 witness: the callback synthesized for `c5State`. -/
theorem c5_theorem_witness :
    (serializeInitializationCallback c5State).1 =
      Stmt.varDecl initializationCallbackName
        (Expr.funcExpr [Param.identifier "obj", Param.identifier "id"]
          [Stmt.switchStmt (Expr.ident "id")
            ([(some (Expr.numLit 1), [Stmt.recordedStmt 0, Stmt.breakStmt]),
              (some (Expr.numLit 2), [Stmt.breakStmt])] ++ [defaultSwitchCase])]) :=
  c5_theorem c5State (by decide)

/-! ## Factory-path instance stubs (claims C7, C9)

Embedding of the per-instance loop of the factory branch of
`spliceFunctions` (ResidualFunctions.js:607-663).  `notEarlier` stands for
`BodyReference.isNotEarlierThan` (declared in types.js, not under src) and
is kept as an abstract comparator; `usesThis` comes from the code block's
`FunctionInfo`. -/

def Param.isIdentifierParam : Param → Bool
  | .identifier _ => true
  | .patternParam _ => false

def paramIdentExpr : Param → Expr
  | .identifier name => Expr.ident name
  | .patternParam _ => Expr.ident ""

/-- The `flatArgs` of an instance: serialized values of the varying
bindings, then the numeric scope-instance ids. -/
def factoryFlatArgs (inst : FunctionInstance) : List Expr :=
  inst.varyingBindings.map (fun b => b.serializedValue) ++
    inst.scopeInstanceIds.map Expr.numLit

/-- `hasFunctionArg`, accumulated while mapping `factoryNames`. -/
def factoryHasFunctionArg (inst : FunctionInstance) : Bool :=
  inst.varyingBindings.any (fun b => b.valueIsFunction)

/-- The stub-shape condition (ResidualFunctions.js:627-635): delayed
initializer, `this` usage, function-valued varying binding, first usage
earlier than the insertion point, or associated prototype identifier. -/
def requiresCallWrapper (notEarlier : BodyRef → BodyRef → Bool) (usesThis : Bool)
    (inst : FunctionInstance) : Bool :=
  inst.hasInitializerStatement || usesThis || factoryHasFunctionArg inst ||
    (match inst.firstUsage with
     | some firstUsage => !(notEarlier firstUsage inst.insertionPoint)
     | none => false) ||
    inst.hasPrototypeId

def nonIdentifierParamMessage : String :=
  "TODO: do not know how to deal with non-Identifier parameters"

/-- The loop over `params` building `callArgs`: a non-Identifier parameter
raises the fatal error. -/
def paramsToCallArgs : List Param → Except String (List Expr)
  | [] => .ok []
  | Param.identifier name :: rest =>
    (paramsToCallArgs rest).map (fun l => Expr.ident name :: l)
  | Param.patternParam _ :: _rest => .error nonIdentifierParamMessage

/-- The `.call` wrapper stub:
`function (params) { return factory.call(this, ...flatArgs, ...params); }`. -/
def callWrapperNode (factoryId : Expr) (params : List Param) (inst : FunctionInstance) : Expr :=
  Expr.funcExpr params
    [Stmt.returnStmt (Expr.call (Expr.member factoryId "call")
      (Expr.thisExpr :: (factoryFlatArgs inst ++ params.map paramIdentExpr)))]

/-- The `.bind` stub: `factory.bind(null, ...flatArgs)`. -/
def bindStubNode (factoryId : Expr) (inst : FunctionInstance) : Expr :=
  Expr.call (Expr.member factoryId "bind") (Expr.nullLit :: factoryFlatArgs inst)

/-- Embedding of the factory-path emission for one instance. -/
def processFactoryInstance (notEarlier : BodyRef → BodyRef → Bool) (usesThis : Bool)
    (factoryId : Expr) (params : List Param) (inst : FunctionInstance) :
    Except String Expr :=
  if requiresCallWrapper notEarlier usesThis inst then
    match paramsToCallArgs params with
    | .error e => .error e
    | .ok paramArgs =>
      .ok (Expr.funcExpr params
        [Stmt.returnStmt (Expr.call (Expr.member factoryId "call")
          (Expr.thisExpr :: (factoryFlatArgs inst ++ paramArgs)))])
  else
    .ok (bindStubNode factoryId inst)

/-- The factory-path loop over `normalInstances`; a raised fatal error aborts
the whole loop with no partial output. -/
def processFactoryInstances (notEarlier : BodyRef → BodyRef → Bool) (usesThis : Bool)
    (factoryId : Expr) (params : List Param) :
    List FunctionInstance → Except String (List Expr)
  | [] => .ok []
  | inst :: rest =>
    match processFactoryInstance notEarlier usesThis factoryId params inst with
    | .error e => .error e
    | .ok node =>
      match processFactoryInstances notEarlier usesThis factoryId params rest with
      | .error e => .error e
      | .ok nodes => .ok (node :: nodes)

/-- The claim C7 condition, spelled as the specification does. -/
def CallWrapperCondition (notEarlier : BodyRef → BodyRef → Bool) (usesThis : Bool)
    (inst : FunctionInstance) : Prop :=
  inst.hasInitializerStatement = true ∨ usesThis = true ∨
    (∃ b ∈ inst.varyingBindings, b.valueIsFunction = true) ∨
    (∃ fu, inst.firstUsage = some fu ∧ notEarlier fu inst.insertionPoint = false) ∨
    inst.hasPrototypeId = true

theorem requiresCallWrapper_iff (notEarlier : BodyRef → BodyRef → Bool) (usesThis : Bool)
    (inst : FunctionInstance) :
    requiresCallWrapper notEarlier usesThis inst = true ↔
      CallWrapperCondition notEarlier usesThis inst := by
  cases hfu : inst.firstUsage with
  | none =>
    simp [requiresCallWrapper, CallWrapperCondition, factoryHasFunctionArg, hfu,
      List.any_eq_true, or_assoc]
  | some fu =>
    simp [requiresCallWrapper, CallWrapperCondition, factoryHasFunctionArg, hfu,
      List.any_eq_true, Bool.not_eq_true', or_assoc]

theorem paramsToCallArgs_ok (params : List Param)
    (h : params.all Param.isIdentifierParam = true) :
    paramsToCallArgs params = Except.ok (params.map paramIdentExpr) := by
  induction params with
  | nil => rfl
  | cons p rest ih =>
    cases p with
    | identifier name =>
      simp only [List.all_cons, Param.isIdentifierParam, Bool.true_and] at h
      simp [paramsToCallArgs, ih h, Except.map, paramIdentExpr]
    | patternParam t =>
      simp [List.all_cons, Param.isIdentifierParam] at h

/-- Claim C7: on the factory path, an instance whose parameters are plain
identifiers is emitted as the `factory.call(this, ...)` wrapper function
exactly when it has a delayed initializer statement, its code uses `this`,
one of its varying bindings is function-valued, its first recorded usage is
earlier than its insertion point, or it has an associated prototype
identifier; in every other case its value is `factory.bind(null,
...varyingArgs)`. -/
theorem c7_theorem (notEarlier : BodyRef → BodyRef → Bool) (usesThis : Bool)
    (factoryId : Expr) (params : List Param) (inst : FunctionInstance)
    (hparams : params.all Param.isIdentifierParam = true) :
    (processFactoryInstance notEarlier usesThis factoryId params inst =
        Except.ok (callWrapperNode factoryId params inst) ↔
      CallWrapperCondition notEarlier usesThis inst) ∧
      (¬ CallWrapperCondition notEarlier usesThis inst →
        processFactoryInstance notEarlier usesThis factoryId params inst =
          Except.ok (bindStubNode factoryId inst)) := by
  have hca := paramsToCallArgs_ok params hparams
  constructor
  · constructor
    · intro h
      cases hr : requiresCallWrapper notEarlier usesThis inst with
      | true => exact (requiresCallWrapper_iff notEarlier usesThis inst).mp hr
      | false =>
        exfalso
        simp only [processFactoryInstance, hr, Bool.false_eq_true, if_false] at h
        simp [bindStubNode, callWrapperNode] at h
    · intro hc
      have hr : requiresCallWrapper notEarlier usesThis inst = true :=
        (requiresCallWrapper_iff notEarlier usesThis inst).mpr hc
      simp [processFactoryInstance, hr, hca, callWrapperNode]
  · intro hnc
    have hr : requiresCallWrapper notEarlier usesThis inst = false := by
      cases hr : requiresCallWrapper notEarlier usesThis inst with
      | true => exact absurd ((requiresCallWrapper_iff notEarlier usesThis inst).mp hr) hnc
      | false => rfl
    simp [processFactoryInstance, hr]

/-- A factory-path instance whose code block uses `this`. -/
def c7Inst : FunctionInstance :=
  { scopeInstanceIds := [2]
    varyingBindings := [{ serializedValue := Expr.numLit 42, valueIsFunction := false }]
    hasInitializerStatement := false
    firstUsage := none
    insertionPoint := { bodyId := 0, index := 0 }
    hasPrototypeId := false }

/-- Claim C7 witness: a `this`-using block forces the `.call` wrapper. -/
theorem c7_theorem_witness :
    processFactoryInstance (fun _ _ => true) true (Expr.ident "f")
        [Param.identifier "x"] c7Inst =
      Except.ok (callWrapperNode (Expr.ident "f") [Param.identifier "x"] c7Inst) :=
  ((c7_theorem (fun _ _ => true) true (Expr.ident "f") [Param.identifier "x"] c7Inst
      rfl).1).mpr (Or.inr (Or.inl rfl))

theorem paramsToCallArgs_error (params : List Param)
    (h : params.all Param.isIdentifierParam = false) :
    paramsToCallArgs params = Except.error nonIdentifierParamMessage := by
  induction params with
  | nil => simp at h
  | cons p rest ih =>
    cases p with
    | identifier name =>
      simp only [List.all_cons, Param.isIdentifierParam, Bool.true_and] at h
      simp [paramsToCallArgs, ih h, Except.map]
    | patternParam t => rfl

theorem paramsToCallArgs_error_msg (params : List Param) (e : String)
    (h : paramsToCallArgs params = Except.error e) : e = nonIdentifierParamMessage := by
  induction params with
  | nil => simp [paramsToCallArgs] at h
  | cons p rest ih =>
    cases p with
    | identifier name =>
      simp only [paramsToCallArgs] at h
      cases hq : paramsToCallArgs rest with
      | error e3 =>
        rw [hq] at h
        simp only [Except.map] at h
        have h3 : e3 = e := Except.error.inj h
        exact ih (h3 ▸ hq)
      | ok l =>
        rw [hq] at h
        simp [Except.map] at h
    | patternParam t =>
      simp only [paramsToCallArgs] at h
      exact (Except.error.inj h).symm

theorem processFactoryInstance_error_msg (notEarlier : BodyRef → BodyRef → Bool)
    (usesThis : Bool) (factoryId : Expr) (params : List Param)
    (inst : FunctionInstance) (e : String)
    (h : processFactoryInstance notEarlier usesThis factoryId params inst =
      Except.error e) :
    e = nonIdentifierParamMessage := by
  cases hr : requiresCallWrapper notEarlier usesThis inst with
  | false =>
    simp [processFactoryInstance, hr] at h
  | true =>
    simp only [processFactoryInstance, hr, if_true] at h
    cases hp : paramsToCallArgs params with
    | error e2 =>
      rw [hp] at h
      exact (Except.error.inj h) ▸ paramsToCallArgs_error_msg params e2 hp
    | ok l =>
      rw [hp] at h
      simp at h

/-- Claim C9: if a factory-path instance requires the `.call` wrapper stub
and some formal parameter of the block is not a plain identifier, the whole
instance loop aborts with the fatal error (the `Except.error` result carries
no partial output). -/
theorem c9_theorem (notEarlier : BodyRef → BodyRef → Bool) (usesThis : Bool)
    (factoryId : Expr) (params : List Param) (insts : List FunctionInstance)
    (inst : FunctionInstance) (hmem : inst ∈ insts)
    (hwrap : requiresCallWrapper notEarlier usesThis inst = true)
    (hbad : params.all Param.isIdentifierParam = false) :
    processFactoryInstances notEarlier usesThis factoryId params insts =
      Except.error nonIdentifierParamMessage := by
  induction insts with
  | nil => simp at hmem
  | cons a rest ih =>
    rcases List.mem_cons.mp hmem with rfl | hmem2
    · have herr : processFactoryInstance notEarlier usesThis factoryId params inst =
          Except.error nonIdentifierParamMessage := by
        simp [processFactoryInstance, hwrap, paramsToCallArgs_error params hbad]
      simp [processFactoryInstances, herr]
    · cases ha : processFactoryInstance notEarlier usesThis factoryId params a with
      | error e =>
        have he := processFactoryInstance_error_msg notEarlier usesThis factoryId
          params a e ha
        simp [processFactoryInstances, ha, he]
      | ok node =>
        simp [processFactoryInstances, ha, ih hmem2]

/-- A factory-path instance requiring the wrapper via a function-valued
varying binding. -/
def c9Inst : FunctionInstance :=
  { scopeInstanceIds := []
    varyingBindings := [{ serializedValue := Expr.ident "g", valueIsFunction := true }]
    hasInitializerStatement := false
    firstUsage := none
    insertionPoint := { bodyId := 0, index := 0 }
    hasPrototypeId := false }

/-- Claim C9 witness: one wrapper-requiring instance and a destructuring
parameter abort the loop with the fatal error. -/
theorem c9_theorem_witness :
    processFactoryInstances (fun _ _ => true) false (Expr.ident "f")
        [Param.patternParam 0] [c9Inst] =
      Except.error nonIdentifierParamMessage :=
  c9_theorem (fun _ _ => true) false (Expr.ident "f") [Param.patternParam 0]
    [c9Inst] c9Inst (List.mem_cons_self _ _) rfl rfl

/-! ## Class nodes on the naive path (claim C10)

Embedding of the class-method branch of `naiveProcessInstances`
(ResidualFunctions.js:442-493) and of `_getOrCreateClassNode`
(ResidualFunctions.js:717-727).  Class prototypes are identified by natural
numbers; the instantiated method node records the constructor arguments of
`t.classMethod` (the shared code block by its tag). -/

structure ClassMethodNode where
  methodType : String
  classMethodKeyNode : Expr
  methodParams : List Param
  funcBodyTag : Nat
  classMethodComputed : Bool
  classMethodIsStatic : Bool

structure ClassNodeData where
  body : List ClassMethodNode
  superClass : Option Expr

/-- The fields of a `ClassMethodInstance` the naive path consults, plus
`functionValue.$HasEmptyConstructor`. -/
structure ClassMethodInstanceData where
  methodType : String
  classMethodKeyNode : Expr
  classSuperNode : Option Expr
  classMethodComputed : Bool
  classMethodIsStatic : Bool
  classPrototype : Nat
  hasEmptyConstructor : Bool

/-- Embedding of `_getOrCreateClassNode`: look the prototype up in
`this.classes`, creating and registering an empty class expression on first
reference. -/
def getOrCreateClassNode (classes : List (Nat × ClassNodeData)) (classPrototype : Nat) :
    ClassNodeData × List (Nat × ClassNodeData) :=
  match lookupAssoc classPrototype classes with
  | some node => (node, classes)
  | none =>
    (⟨[], none⟩, classes ++ [(classPrototype, (⟨[], none⟩ : ClassNodeData))])

def mkClassMethodNode (cm : ClassMethodInstanceData) (params : List Param)
    (funcBodyTag : Nat) : ClassMethodNode :=
  { methodType := cm.methodType
    classMethodKeyNode := cm.classMethodKeyNode
    methodParams := params
    funcBodyTag := funcBodyTag
    classMethodComputed := cm.classMethodComputed
    classMethodIsStatic := cm.classMethodIsStatic }

/-- Embedding of the class-method branch of `naiveProcessInstances` for one
instance: fetch or create the class node, add the rewritten method unless
the instance is a constructor with an empty user-land constructor
(constructors are unshifted to the front, other methods pushed to the back),
and for constructors install the super class when present.  The mutation of
the shared node is modelled by writing the node back into the map. -/
def naiveProcessClassMethodInstance (classes : List (Nat × ClassNodeData))
    (cm : ClassMethodInstanceData) (params : List Param) (funcBodyTag : Nat) :
    List (Nat × ClassNodeData) :=
  let r := getOrCreateClassNode classes cm.classPrototype
  let isConstructor := cm.methodType == "constructor"
  let node1 :=
    if !isConstructor || (isConstructor && !cm.hasEmptyConstructor) then
      if isConstructor then { r.1 with body := mkClassMethodNode cm params funcBodyTag :: r.1.body }
      else { r.1 with body := r.1.body ++ [mkClassMethodNode cm params funcBodyTag] }
    else r.1
  let node2 :=
    if isConstructor then
      match cm.classSuperNode with
      | some sup => { node1 with superClass := some sup }
      | none => node1
    else node1
  updateAssoc cm.classPrototype node2 r.2

theorem lookupAssoc_updateAssoc_self {β : Type} (k : Nat) (v w : β)
    (l : List (Nat × β)) (h : lookupAssoc k l = some w) :
    lookupAssoc k (updateAssoc k v l) = some v := by
  induction l with
  | nil => simp [lookupAssoc] at h
  | cons p rest ih =>
    by_cases hk : p.1 = k
    · rw [updateAssoc, if_pos hk, lookupAssoc, if_pos rfl]
    · rw [lookupAssoc, if_neg hk] at h
      rw [updateAssoc, if_neg hk, lookupAssoc, if_neg hk]
      exact ih h

theorem classNode_body_after_super (node1 : ClassNodeData) (c : Bool)
    (sup : Option Expr) :
    (if c then
        match sup with
        | some s => { node1 with superClass := some s }
        | none => node1
      else node1).body = node1.body := by
  cases c <;> cases sup <;> rfl

/-- Claim C10: after the naive path processes a class-method instance, the
class node registered for its prototype has, relative to the previously
registered body (empty on first reference): the same body when the instance
is a constructor of a class whose user-land constructor was empty; the
rewritten method prepended when it is any other constructor; and the
rewritten method appended when it is a non-constructor method. -/
theorem c10_theorem (classes : List (Nat × ClassNodeData))
    (cm : ClassMethodInstanceData) (params : List Param) (funcBodyTag : Nat) :
    ∃ node : ClassNodeData,
      lookupAssoc cm.classPrototype
          (naiveProcessClassMethodInstance classes cm params funcBodyTag) = some node ∧
        node.body =
          (if cm.methodType = "constructor" then
            if cm.hasEmptyConstructor = true then
              ((lookupAssoc cm.classPrototype classes).getD ⟨[], none⟩).body
            else
              mkClassMethodNode cm params funcBodyTag ::
                ((lookupAssoc cm.classPrototype classes).getD ⟨[], none⟩).body
          else
            ((lookupAssoc cm.classPrototype classes).getD ⟨[], none⟩).body ++
              [mkClassMethodNode cm params funcBodyTag]) := by
  cases hl : lookupAssoc cm.classPrototype classes with
  | some w =>
    have hget : getOrCreateClassNode classes cm.classPrototype = (w, classes) := by
      simp [getOrCreateClassNode, hl]
    simp only [naiveProcessClassMethodInstance, hget]
    refine ⟨_, lookupAssoc_updateAssoc_self _ _ w classes hl, ?_⟩
    rw [classNode_body_after_super]
    by_cases hc : cm.methodType = "constructor"
    · have hcb : (cm.methodType == "constructor") = true := by
        simp [hc]
      by_cases he : cm.hasEmptyConstructor = true
      · simp [hcb, he, hl, hc]
      · have he2 : cm.hasEmptyConstructor = false := by
          cases hh : cm.hasEmptyConstructor
          · rfl
          · exact absurd hh he
        simp [hcb, he2, hl, hc]
    · have hcb : (cm.methodType == "constructor") = false := by
        simp [hc]
      simp [hcb, hl, hc]
  | none =>
    have hget : getOrCreateClassNode classes cm.classPrototype =
        (⟨[], none⟩, classes ++ [(cm.classPrototype, (⟨[], none⟩ : ClassNodeData))]) := by
      simp [getOrCreateClassNode, hl]
    have hlook2 : lookupAssoc cm.classPrototype
        (classes ++ [(cm.classPrototype, (⟨[], none⟩ : ClassNodeData))]) =
          some ⟨[], none⟩ :=
      lookupAssoc_append_self _ _ _ hl
    simp only [naiveProcessClassMethodInstance, hget]
    refine ⟨_, lookupAssoc_updateAssoc_self _ _ _ _ hlook2, ?_⟩
    rw [classNode_body_after_super]
    by_cases hc : cm.methodType = "constructor"
    · have hcb : (cm.methodType == "constructor") = true := by
        simp [hc]
      by_cases he : cm.hasEmptyConstructor = true
      · simp [hcb, he, hl, hc]
      · have he2 : cm.hasEmptyConstructor = false := by
          cases hh : cm.hasEmptyConstructor
          · rfl
          · exact absurd hh he
        simp [hcb, he2, hl, hc]
    · have hcb : (cm.methodType == "constructor") = false := by
        simp [hc]
      simp [hcb, hl, hc]
